import Mathlib

set_option allowUnsafeReducibility true
attribute [local semireducible] Rat.mul Rat.add Rat.inv Rat.sub

/-!
# Affiliate commission ledger — shallow embedding

Shallow embedding of the affiliate ledger and payout engine of `src/main.py`
(Kairah Studio backend): the `checkout.session.completed` branch of the
Stripe webhook handler (`stripe_webhook`, lines 191–215), which records
commissions as Firestore documents, and the admin payout runner
(`run_affiliate_payouts`, lines 299–322), which aggregates unpaid earnings
per affiliate and commits threshold-gated payouts.

Monetary values are embedded as exact rationals (`Rat`); the Python source
uses IEEE floats, whose rounding is orthogonal to the structural and
algebraic properties proved here.  Firestore collections are embedded as
lists of records; document auto-ids for earnings are embedded as the `id`
field (assigned fresh on insert), and a Firestore document update at path
`affiliates/{aid}/earnings/{eid}` is embedded as an update of the earning
whose affiliate is `aid` and whose id is `eid`.
-/

/-- One earning document in `affiliates/{affiliate_id}/earnings`
(created at src/main.py lines 208–215). -/
structure Earning where
  id : Nat
  affiliate_id : String
  amount : Rat
  gross : Rat
  source : String
  session_id : Option String
  paid : Bool
deriving DecidableEq, Repr

/-- One document in the `affiliate_payouts` collection
(created at src/main.py line 318). -/
structure Payout where
  affiliate_id : String
  amount : Rat
  status : String
deriving DecidableEq, Repr

/-- One document in the `payments` collection
(`save_payment_record`, src/main.py lines 100–106, as invoked at line 201). -/
structure PaymentRecord where
  provider : String
  event : String
  session : Option String
  amount : Option Rat
  uid : Option String
  affiliate : Option String
deriving DecidableEq, Repr

/-- One entry of the payout run report (src/main.py line 321). -/
structure ReportEntry where
  affiliate : String
  amount : Rat
deriving DecidableEq, Repr

/-- The Firestore collections touched by the ledger: `payments`, `users`
(only the set of user documents matters here), `affiliates` (the document
ids), the earnings sub-collections (flattened, each earning carrying its
`affiliate_id`), and `affiliate_payouts`. -/
structure State where
  payments : List PaymentRecord
  users : List String
  affiliates : List String
  earnings : List Earning
  payouts : List Payout
deriving DecidableEq, Repr

/-- The empty store. -/
def initState : State := ⟨[], [], [], [], []⟩

/-- The fields of a `checkout.session.completed` event object read by the
handler: `session.get("id")`, `metadata.get("uid")`,
`metadata.get("affiliate_id")`, `session.get("amount_total")` (cents). -/
structure CheckoutSession where
  sid : Option String
  uid : Option String
  affiliate_id : Option String
  amount_total : Option Int
deriving DecidableEq, Repr

/-- Python truthiness of an optional string (`if uid`, `if affiliate`). -/
def strTruthy : Option String → Bool
  | none => false
  | some s => !(s == "")

/-- `amount = session.get("amount_total") / 100.0 if session.get("amount_total") else None`
(src/main.py line 198): `None` and `0` are falsy, so a missing or zero
`amount_total` yields `None`. -/
def sessionAmount (sess : CheckoutSession) : Option Rat :=
  match sess.amount_total with
  | none => none
  | some n => if n == 0 then none else some ((n : Rat) / 100)

/-- `doc.set({...}, merge=True)` keyed by document id: insert the id if absent. -/
def upsert (x : String) (l : List String) : List String :=
  if x ∈ l then l else l ++ [x]

/-- `AFFILIATE_COMMISSION = float(os.getenv("AFFILIATE_COMMISSION", "0.30"))`
(src/main.py line 36): the environment-configured commission rate,
defaulting to 0.30.  The webhook embedding takes the rate as a parameter;
this constant is its default value. -/
def AFFILIATE_COMMISSION : Rat := 3 / 10

/-- The `checkout.session.completed` branch of the Stripe webhook handler
(src/main.py lines 191–215): always saves a payment record; marks the user
paid when a uid is present; and when both the affiliate metadata and the
amount are truthy, upserts the affiliate document and appends a new unpaid
earning with `amount = amount * AFFILIATE_COMMISSION` and `gross = amount`.
The handler's other branch (`invoice.payment_succeeded`) only appends a
payment log record and never touches the ledger. -/
def stripe_webhook (rate : Rat) (sess : CheckoutSession) (s : State) : State :=
  let amount := sessionAmount sess
  let s1 : State :=
    { s with payments := s.payments ++
        [⟨"stripe", "checkout.session.completed", sess.sid, amount, sess.uid, sess.affiliate_id⟩] }
  let s2 : State :=
    match sess.uid with
    | some u => if u == "" then s1 else { s1 with users := upsert u s1.users }
    | none => s1
  match sess.affiliate_id, amount with
  | some aff, some amt =>
    if aff == "" then s2
    else if amt == 0 then s2
    else
      let s3 : State := { s2 with affiliates := upsert aff s2.affiliates }
      { s3 with earnings := s3.earnings ++
          [⟨s3.earnings.length, aff, amt * rate, amt, "stripe", sess.sid, false⟩] }
  | _, _ => s2

/-- The unpaid earnings of one affiliate:
`earnings.where("paid","==",False)` on `affiliates/{aid}/earnings`
(src/main.py line 309). -/
def unpaidOf (aid : String) (es : List Earning) : List Earning :=
  es.filter (fun e => e.affiliate_id == aid && !e.paid)

/-- The unpaid total of one affiliate (the loop at src/main.py lines 310–316). -/
def unpaidTotal (aid : String) (es : List Earning) : Rat :=
  ((unpaidOf aid es).map (fun e => e.amount)).sum

/-- The body of the payout loop for one affiliate (src/main.py lines
308–321): aggregate the unpaid earnings; if the total reaches the
threshold, add a payout record, set `paid = True` on each collected
earning document (addressed by its `(affiliate, id)` document path), and
report `{affiliate, amount}`; otherwise leave the state unchanged. -/
def processAffiliate (t : Rat) (aid : String) (s : State) : State × Option ReportEntry :=
  let unpaid := unpaidOf aid s.earnings
  let total := (unpaid.map (fun e => e.amount)).sum
  let ids := unpaid.map (fun e => e.id)
  if t ≤ total then
    ({ s with
        payouts := s.payouts ++ [⟨aid, total, "pending"⟩],
        earnings := s.earnings.map (fun e =>
          if e.affiliate_id == aid && ids.contains e.id then { e with paid := true } else e) },
     some ⟨aid, total⟩)
  else (s, none)

/-- The `for a in affs` loop of the payout runner (src/main.py lines 307–321). -/
def payoutLoop (t : Rat) : List String → State → State × List ReportEntry
  | [], s => (s, [])
  | aid :: rest, s =>
    let pr := processAffiliate t aid s
    let lr := payoutLoop t rest pr.1
    (lr.1, pr.2.toList ++ lr.2)

/-- The payout runner with an explicit threshold: iterate the affiliates
collection, committing a payout for each affiliate at or above `t`. -/
def runPayoutsWith (t : Rat) (s : State) : State × List ReportEntry :=
  payoutLoop t s.affiliates s

/-- `run_affiliate_payouts` (src/main.py lines 299–322): the admin payout
runner, whose threshold is the constant `500.0` at line 317. -/
def run_affiliate_payouts (s : State) : State × List ReportEntry :=
  runPayoutsWith 500 s

/-- An external invocation of the ledger: a payment event (webhook
recording) or an admin payout run. -/
inductive Op where
  | record (sess : CheckoutSession)
  | payout
deriving DecidableEq, Repr

/-- Apply one external invocation to the store. -/
def applyOp (rate : Rat) (o : Op) (s : State) : State :=
  match o with
  | Op.record sess => stripe_webhook rate sess s
  | Op.payout => (run_affiliate_payouts s).1

/-- Run a sequence of external invocations. -/
def runTrace (rate : Rat) (tr : List Op) (s : State) : State :=
  match tr with
  | [] => s
  | o :: rest => runTrace rate rest (applyOp rate o s)

/-- A store state is reachable when some interleaving of earning
recordings and payout runs produces it from the empty store. -/
def Reachable (rate : Rat) (s : State) : Prop :=
  ∃ tr, runTrace rate tr initState = s

/-- Sum of `amount` over all payout records of one affiliate. -/
def payoutSum (aid : String) (s : State) : Rat :=
  ((s.payouts.filter (fun p => p.affiliate_id == aid)).map (fun p => p.amount)).sum

/-- Sum of `amount` over the still-unpaid earnings of one affiliate. -/
def unpaidSum (aid : String) (s : State) : Rat :=
  unpaidTotal aid s.earnings

/-- Sum of `amount` over every earning of one affiliate ever created. -/
def earnedSum (aid : String) (s : State) : Rat :=
  ((s.earnings.filter (fun e => e.affiliate_id == aid)).map (fun e => e.amount)).sum

/-- The conservation law: payouts plus unpaid earnings account for all
earnings, for every affiliate. -/
def Conserved (s : State) : Prop :=
  ∀ aid, payoutSum aid s + unpaidSum aid s = earnedSum aid s

/-- Flip the `paid` flag of an earning when it is an unpaid earning of `aid`. -/
def markFn (aid : String) (e : Earning) : Earning :=
  if e.affiliate_id == aid && !e.paid then { e with paid := true } else e

/-- Mark every unpaid earning of `aid` as paid. -/
def markPaid (aid : String) (es : List Earning) : List Earning :=
  es.map (markFn aid)

/-- Whether the store holds a paid earning with document id `i`. -/
def paidAt (i : Nat) (s : State) : Bool :=
  s.earnings.any (fun e => e.id == i && e.paid)

/-- 1 when the step from `s` to `s'` flips earning `i` from unpaid to paid. -/
def flipInd (i : Nat) (s s' : State) : Nat :=
  if !(paidAt i s) && paidAt i s' then 1 else 0

/-- Number of per-affiliate commits inside one payout run that flip
earning `i` from unpaid to paid. -/
def loopFlips (t : Rat) (i : Nat) : List String → State → Nat
  | [], _ => 0
  | aid :: rest, s =>
    flipInd i s (processAffiliate t aid s).1 + loopFlips t i rest (processAffiliate t aid s).1

/-- Number of payout commits across a whole trace that flip earning `i`
from unpaid to paid (payout runs are counted commit by commit). -/
def traceFlips (rate : Rat) (i : Nat) : List Op → State → Nat
  | [], _ => 0
  | Op.record sess :: tr, s =>
    flipInd i s (stripe_webhook rate sess s) + traceFlips rate i tr (stripe_webhook rate sess s)
  | Op.payout :: tr, s =>
    loopFlips 500 i s.affiliates s + traceFlips rate i tr (run_affiliate_payouts s).1

/-- How the earnings collection may evolve across one operation: no
earning is ever deleted, every field other than `paid` of an existing
earning is immutable, and `paid` only ever moves from `false` to `true`. -/
def EarnEvol (es es' : List Earning) : Prop :=
  es.length ≤ es'.length ∧
  ∀ (i : Nat) (h1 : i < es.length) (h2 : i < es'.length),
    (es'.get ⟨i, h2⟩).id = (es.get ⟨i, h1⟩).id ∧
    (es'.get ⟨i, h2⟩).affiliate_id = (es.get ⟨i, h1⟩).affiliate_id ∧
    (es'.get ⟨i, h2⟩).amount = (es.get ⟨i, h1⟩).amount ∧
    (es'.get ⟨i, h2⟩).gross = (es.get ⟨i, h1⟩).gross ∧
    (es'.get ⟨i, h2⟩).source = (es.get ⟨i, h1⟩).source ∧
    (es'.get ⟨i, h2⟩).session_id = (es.get ⟨i, h1⟩).session_id ∧
    ((es.get ⟨i, h1⟩).paid = true → (es'.get ⟨i, h2⟩).paid = true)

/-- Outcome of a payout run against a store whose reads may fail. -/
inductive RunOutcome where
  | ok (s : State) (report : List ReportEntry)
  | raised (affiliate : String)
deriving DecidableEq, Repr

/-- The payout loop run against a fallible store: `queryFails aid` means
the earnings query for affiliate `aid` raises.  The source has no
`try`/`except` inside the loop (src/main.py lines 307–321), so a raised
store error propagates out of `run_affiliate_payouts` at once: affiliates
after the failing one are never processed and no report is returned. -/
def payoutLoopFallible (t : Rat) (queryFails : String → Bool) :
    List String → State → RunOutcome
  | [], s => RunOutcome.ok s []
  | aid :: rest, s =>
    if queryFails aid then RunOutcome.raised aid
    else
      match payoutLoopFallible t queryFails rest (processAffiliate t aid s).1 with
      | RunOutcome.raised m => RunOutcome.raised m
      | RunOutcome.ok s2 res => RunOutcome.ok s2 (((processAffiliate t aid s).2).toList ++ res)

/-! ### Concrete inputs used by the witnesses and counterexamples -/

/-- A concrete affiliate identifier. -/
def affA1 : String := "A1"

/-- A second concrete affiliate identifier. -/
def affA2 : String := "A2"

/-- A concrete provider session reference. -/
def sessRef : String := "sess_1"

/-- A checkout session: gross 1000 (100000 cents) referred by `A1`. -/
def sessW : CheckoutSession := ⟨some sessRef, none, some affA1, some 100000⟩

/-- A checkout session with a negative `amount_total`. -/
def sessNeg : CheckoutSession := ⟨some "sess_2", none, some affA1, some (-100000)⟩

/-- A checkout session with no affiliate metadata. -/
def sessNoAff : CheckoutSession := ⟨some "sess_3", some "u1", none, some 100000⟩

/-- A one-recording-then-one-payout-run trace. -/
def trW : List Op := [Op.record sessW, Op.payout]

/-- The state reached by `trW` at the default commission rate. -/
def stateW : State := runTrace AFFILIATE_COMMISSION trW initState

/-- Affiliate `A1` holding three unpaid earnings of 200, 150 and 200
(commission already applied). -/
def exState : State :=
  ⟨[], [], [affA1],
   [⟨0, affA1, 200, 2000 / 3, "stripe", some "s1", false⟩,
    ⟨1, affA1, 150, 500, "stripe", some "s2", false⟩,
    ⟨2, affA1, 200, 2000 / 3, "stripe", some "s3", false⟩], []⟩

/-- Two affiliates, `A2` holding an unpaid earning of 600 (above
threshold); used to show a failure on `A1` aborts the whole run. -/
def sF : State :=
  ⟨[], [], [affA1, affA2], [⟨0, affA2, 600, 2000, "stripe", some "s9", false⟩], []⟩

/-- Two affiliates, `A2` above threshold and `A1` below; used to show the
run report carries no entry at all for a below-threshold affiliate. -/
def sFb : State :=
  ⟨[], [], [affA1, affA2],
   [⟨0, affA2, 600, 2000, "stripe", some "s9", false⟩,
    ⟨1, affA1, 100, 1000 / 3, "stripe", some "s8", false⟩], []⟩

/-! ### Basic facts about the marking step -/

theorem markFn_id (aid : String) (e : Earning) : (markFn aid e).id = e.id := by
  unfold markFn; split <;> rfl

theorem markFn_affiliate (aid : String) (e : Earning) :
    (markFn aid e).affiliate_id = e.affiliate_id := by
  unfold markFn; split <;> rfl

theorem markFn_amount (aid : String) (e : Earning) : (markFn aid e).amount = e.amount := by
  unfold markFn; split <;> rfl

theorem markFn_paid (aid : String) (e : Earning) :
    (markFn aid e).paid = (e.paid || (e.affiliate_id == aid)) := by
  unfold markFn
  cases hp : e.paid <;> cases ha : e.affiliate_id == aid <;> simp [hp, ha]

theorem markFn_of_paid (aid : String) (e : Earning) (h : e.paid = true) : markFn aid e = e := by
  unfold markFn; simp [h]

/-- The source marks the collected earning ids of one affiliate paid by
their document paths; since every unpaid earning of the affiliate has its
own id in the collected list, this equals marking all of the affiliate's
unpaid earnings. -/
theorem mark_by_ids_eq (aid : String) (es : List Earning) :
    (es.map (fun e =>
      if e.affiliate_id == aid && ((unpaidOf aid es).map (fun x => x.id)).contains e.id
      then { e with paid := true } else e)) = markPaid aid es := by
  unfold markPaid
  apply List.map_congr_left
  intro e he
  unfold markFn
  by_cases h1 : e.affiliate_id == aid
  · by_cases h2 : e.paid
    · have hself : ({ e with paid := true } : Earning) = e := by
        cases e; simp_all
      simp only [h1, h2, Bool.true_and, Bool.not_true, Bool.and_false, if_false]
      split <;> simp [hself]
    · have hmem : e ∈ unpaidOf aid es := by
        simp [unpaidOf, List.mem_filter, he, h1, h2]
      have hid : e.id ∈ (unpaidOf aid es).map (fun x => x.id) :=
        List.mem_map_of_mem _ hmem
      have hc : ((unpaidOf aid es).map (fun x => x.id)).contains e.id = true :=
        List.elem_iff.mpr hid
      have h2' : (!e.paid) = true := by simp [h2]
      simp only [h1, hc, h2', Bool.and_self, Bool.true_and, if_true]
  · simp [h1]

/-- `processAffiliate` in closed form: on commit it appends one payout of
the unpaid total and marks exactly the affiliate's unpaid earnings paid. -/
theorem processAffiliate_eq (t : Rat) (aid : String) (s : State) :
    processAffiliate t aid s =
      if t ≤ unpaidTotal aid s.earnings then
        ({ s with
            payouts := s.payouts ++ [⟨aid, unpaidTotal aid s.earnings, "pending"⟩],
            earnings := markPaid aid s.earnings },
         some ⟨aid, unpaidTotal aid s.earnings⟩)
      else (s, none) := by
  simp only [processAffiliate, unpaidTotal]
  split
  · rw [mark_by_ids_eq]
  · rfl

/-! ### How marking interacts with the per-affiliate aggregates -/

theorem unpaidOf_markPaid_self (aid : String) (es : List Earning) :
    unpaidOf aid (markPaid aid es) = [] := by
  apply List.filter_eq_nil_iff.mpr
  intro x hx
  rcases List.mem_map.mp hx with ⟨e, _, rfl⟩
  rw [Bool.not_eq_true]
  rw [markFn_affiliate, markFn_paid]
  cases e.affiliate_id == aid <;> cases e.paid <;> rfl

theorem unpaidOf_markPaid_other (b aid : String) (h : ¬b = aid) (es : List Earning) :
    unpaidOf b (markPaid aid es) = unpaidOf b es := by
  unfold unpaidOf markPaid
  rw [List.filter_map]
  have hfc : es.filter ((fun e => e.affiliate_id == b && !e.paid) ∘ markFn aid)
      = es.filter (fun e => e.affiliate_id == b && !e.paid) := by
    apply List.filter_congr
    intro e _
    simp only [Function.comp_apply, markFn_affiliate, markFn_paid]
    by_cases hb : (e.affiliate_id == b) = true
    · have heb : e.affiliate_id = b := by simpa using hb
      have hba : (e.affiliate_id == aid) = false := by
        rw [heb]
        simpa using fun hc => h hc
      simp [hb, hba]
    · have hbf : (e.affiliate_id == b) = false := by
        simpa using fun hc => hb hc
      simp [hbf]
  rw [hfc]
  have hid : ∀ e ∈ es.filter (fun e => e.affiliate_id == b && !e.paid), markFn aid e = e := by
    intro e he
    have hb : (e.affiliate_id == b && !e.paid) = true := (List.mem_filter.mp he).2
    have hb1 : (e.affiliate_id == b) = true := (Bool.and_eq_true _ _).mp hb |>.1
    have heb : e.affiliate_id = b := by simpa using hb1
    unfold markFn
    have hba : (e.affiliate_id == aid) = false := by
      rw [heb]
      simpa using fun hc => h hc
    simp [hba]
  rw [List.map_congr_left hid]
  exact List.map_id _

theorem filter_affiliate_markPaid_amounts (b aid : String) (es : List Earning) :
    (((markPaid aid es).filter (fun e => e.affiliate_id == b)).map (fun e => e.amount))
      = ((es.filter (fun e => e.affiliate_id == b)).map (fun e => e.amount)) := by
  unfold markPaid
  rw [List.filter_map]
  have hfc : es.filter ((fun e => e.affiliate_id == b) ∘ markFn aid)
      = es.filter (fun e => e.affiliate_id == b) := by
    apply List.filter_congr
    intro e _
    simp only [Function.comp_apply, markFn_affiliate]
  rw [hfc, List.map_map]
  apply List.map_congr_left
  intro e _
  simp only [Function.comp_apply, markFn_amount]

/-! ### Conservation is preserved by every step -/

theorem conserved_processAffiliate (t : Rat) (aid : String) (s : State)
    (h : Conserved s) : Conserved (processAffiliate t aid s).1 := by
  rw [processAffiliate_eq]
  split
  · intro b
    have hc := h b
    by_cases hb : b = aid
    · subst hb
      simp only [payoutSum, unpaidSum, earnedSum, unpaidTotal] at hc ⊢
      simp only [List.filter_append, List.map_append, List.sum_append]
      rw [unpaidOf_markPaid_self, filter_affiliate_markPaid_amounts]
      simp only [List.filter_cons, List.filter_nil, beq_self_eq_true, if_true]
      simp only [List.map_nil, List.sum_nil, List.map_cons, List.sum_cons]
      rw [← hc]
      ring
    · simp only [payoutSum, unpaidSum, earnedSum, unpaidTotal] at hc ⊢
      simp only [List.filter_append, List.map_append, List.sum_append]
      rw [unpaidOf_markPaid_other b aid hb, filter_affiliate_markPaid_amounts]
      have hba : (aid == b) = false := by
        simpa using fun hcc => hb hcc.symm
      simp only [List.filter_cons, List.filter_nil, hba, Bool.false_eq_true, if_false,
        List.map_nil, List.sum_nil, List.map_cons, List.sum_cons]
      rw [← hc]
      ring
  · exact h

theorem payoutLoop_fst (t : Rat) (aid : String) (rest : List String) (s : State) :
    (payoutLoop t (aid :: rest) s).1 = (payoutLoop t rest (processAffiliate t aid s).1).1 := rfl

theorem payoutLoop_snd (t : Rat) (aid : String) (rest : List String) (s : State) :
    (payoutLoop t (aid :: rest) s).2
      = ((processAffiliate t aid s).2).toList ++ (payoutLoop t rest (processAffiliate t aid s).1).2 := rfl

theorem conserved_payoutLoop (t : Rat) (affs : List String) :
    ∀ s : State, Conserved s → Conserved (payoutLoop t affs s).1 := by
  induction affs with
  | nil => intro s h; exact h
  | cons a rest ih =>
    intro s h
    rw [payoutLoop_fst]
    exact ih _ (conserved_processAffiliate t a s h)

/-! ### Characterizing the webhook handler -/

theorem stripe_webhook_payments_length (rate : Rat) (sess : CheckoutSession) (s : State) :
    (stripe_webhook rate sess s).payments.length = s.payments.length + 1 := by
  rcases sess with ⟨sid, uid, aff, amt⟩
  cases uid <;> cases aff <;> cases amt <;>
    simp only [stripe_webhook, sessionAmount] <;>
    (try split_ifs) <;> (try simp) <;> (try split_ifs) <;> simp_all

theorem stripe_webhook_payouts (rate : Rat) (sess : CheckoutSession) (s : State) :
    (stripe_webhook rate sess s).payouts = s.payouts := by
  rcases sess with ⟨sid, uid, aff, amt⟩
  cases uid <;> cases aff <;> cases amt <;>
    simp only [stripe_webhook, sessionAmount] <;>
    (try split_ifs) <;> (try simp) <;> (try split_ifs) <;> simp_all

theorem stripe_webhook_no_earning (rate : Rat) (sess : CheckoutSession) (s : State)
    (h : strTruthy sess.affiliate_id = false ∨ sessionAmount sess = none) :
    (stripe_webhook rate sess s).earnings = s.earnings ∧
    (stripe_webhook rate sess s).affiliates = s.affiliates := by
  rcases sess with ⟨sid, uid, aff, amt⟩
  cases uid <;> cases aff <;> cases amt <;>
    simp only [stripe_webhook, sessionAmount, strTruthy] at h ⊢ <;>
    (try split_ifs) <;> (try simp_all) <;> (try split_ifs) <;> simp_all

theorem stripe_webhook_appends (rate : Rat) (sess : CheckoutSession) (s : State)
    (aff : String) (n : Int) (haff : sess.affiliate_id = some aff) (hne : ¬aff = "")
    (hn : sess.amount_total = some n) (hnz : ¬n = 0) :
    (stripe_webhook rate sess s).earnings
      = s.earnings ++
        [⟨s.earnings.length, aff, ((n : Rat) / 100) * rate, (n : Rat) / 100, "stripe", sess.sid, false⟩] ∧
    (stripe_webhook rate sess s).affiliates = upsert aff s.affiliates := by
  rcases sess with ⟨sid, uid, aff0, amt0⟩
  have h1 : aff0 = some aff := haff
  have h2 : amt0 = some n := hn
  subst h1
  subst h2
  have hnz2 : ¬((n : Rat) / 100) = 0 := by
    intro hc
    apply hnz
    field_simp at hc
    exact_mod_cast hc
  cases uid <;>
    simp only [stripe_webhook, sessionAmount] <;>
    (try split_ifs) <;> (try simp_all) <;> (try split_ifs) <;> simp_all

theorem stripe_webhook_earnings_shape (rate : Rat) (sess : CheckoutSession) (s : State) :
    (stripe_webhook rate sess s).earnings = s.earnings ∨
    ∃ aff amt, (stripe_webhook rate sess s).earnings
        = s.earnings ++ [⟨s.earnings.length, aff, amt * rate, amt, "stripe", sess.sid, false⟩] := by
  rcases hs : sess.affiliate_id with _ | aff
  · left
    exact (stripe_webhook_no_earning rate sess s (Or.inl (by simp [strTruthy, hs]))).1
  · by_cases hne : aff = ""
    · left
      subst hne
      exact (stripe_webhook_no_earning rate sess s (Or.inl (by simp [strTruthy, hs]))).1
    · rcases hn : sess.amount_total with _ | n
      · left
        exact (stripe_webhook_no_earning rate sess s (Or.inr (by simp [sessionAmount, hn]))).1
      · by_cases hnz : n = 0
        · left
          subst hnz
          exact (stripe_webhook_no_earning rate sess s (Or.inr (by simp [sessionAmount, hn]))).1
        · right
          exact ⟨aff, (n : Rat) / 100,
            (stripe_webhook_appends rate sess s aff n hs hne hn hnz).1⟩

theorem conserved_webhook (rate : Rat) (sess : CheckoutSession) (s : State)
    (h : Conserved s) : Conserved (stripe_webhook rate sess s) := by
  intro b
  have hc := h b
  have hpo := stripe_webhook_payouts rate sess s
  rcases stripe_webhook_earnings_shape rate sess s with he | ⟨aff, amt, he⟩
  · simp only [payoutSum, unpaidSum, earnedSum, unpaidTotal, unpaidOf, hpo, he] at hc ⊢
    exact hc
  · simp only [payoutSum, unpaidSum, earnedSum, unpaidTotal, unpaidOf, hpo, he] at hc ⊢
    simp only [List.filter_append, List.map_append, List.sum_append]
    by_cases hb : (aff == b) = true
    · simp only [List.filter_cons, List.filter_nil, hb, Bool.not_false, Bool.and_true, if_true,
        List.map_cons, List.map_nil, List.sum_cons, List.sum_nil]
      rw [← hc]
      ring
    · have hbf : (aff == b) = false := by
        cases hx : (aff == b)
        · rfl
        · exact absurd hx hb
      simp only [List.filter_cons, List.filter_nil, hbf, Bool.false_and, Bool.false_eq_true,
        if_false, List.map_nil, List.sum_nil]
      rw [← hc]
      ring

theorem conserved_initState : Conserved initState := by
  intro aid
  simp [payoutSum, unpaidSum, earnedSum, unpaidTotal, unpaidOf, initState]

theorem conserved_runTrace (rate : Rat) (tr : List Op) :
    ∀ s : State, Conserved s → Conserved (runTrace rate tr s) := by
  induction tr with
  | nil => intro s h; exact h
  | cons o rest ih =>
    intro s h
    cases o with
    | record sess => exact ih _ (conserved_webhook rate sess s h)
    | payout => exact ih _ (conserved_payoutLoop 500 s.affiliates s h)

/-! ### Facts about the payout loop -/

theorem processAffiliate_snd (t : Rat) (b : String) (s : State) :
    (processAffiliate t b s).2 = none ∨
    (processAffiliate t b s).2 = some ⟨b, unpaidTotal b s.earnings⟩ := by
  rw [processAffiliate_eq]
  split
  · right; rfl
  · left; rfl

theorem processAffiliate_payout_mem (t : Rat) (b : String) (s : State) (q : Payout)
    (h : q ∈ s.payouts) : q ∈ ((processAffiliate t b s).1).payouts := by
  rw [processAffiliate_eq]
  split
  · exact List.mem_append_left _ h
  · exact h

theorem payoutLoop_payout_mem (t : Rat) (affs : List String) :
    ∀ (s : State) (q : Payout), q ∈ s.payouts → q ∈ ((payoutLoop t affs s).1).payouts := by
  induction affs with
  | nil => intro s q h; exact h
  | cons b rest ih =>
    intro s q h
    rw [payoutLoop_fst]
    exact ih _ q (processAffiliate_payout_mem t b s q h)

theorem unpaidOf_step_other (t : Rat) (b aid : String) (h : ¬aid = b) (s : State) :
    unpaidOf aid ((processAffiliate t b s).1).earnings = unpaidOf aid s.earnings := by
  rw [processAffiliate_eq]
  split
  · exact unpaidOf_markPaid_other aid b h s.earnings
  · rfl

theorem unpaidTotal_step_other (t : Rat) (b aid : String) (h : ¬aid = b) (s : State) :
    unpaidTotal aid ((processAffiliate t b s).1).earnings = unpaidTotal aid s.earnings := by
  unfold unpaidTotal
  rw [unpaidOf_step_other t b aid h s]

theorem unpaid_empty_step (t : Rat) (b aid : String) (s : State)
    (h : unpaidOf aid s.earnings = []) :
    unpaidOf aid ((processAffiliate t b s).1).earnings = [] := by
  rw [processAffiliate_eq]
  split
  · by_cases hb : aid = b
    · subst hb
      exact unpaidOf_markPaid_self aid s.earnings
    · rw [unpaidOf_markPaid_other aid b hb s.earnings]
      exact h
  · exact h

theorem payoutLoop_unpaid_empty (t : Rat) (aid : String) (affs : List String) :
    ∀ s : State, unpaidOf aid s.earnings = [] →
      unpaidOf aid ((payoutLoop t affs s).1).earnings = [] := by
  induction affs with
  | nil => intro s h; exact h
  | cons b rest ih =>
    intro s h
    rw [payoutLoop_fst]
    exact ih _ (unpaid_empty_step t b aid s h)

theorem payoutLoop_commits (t : Rat) (aid : String) (affs : List String) :
    ∀ s : State, aid ∈ affs → t ≤ unpaidTotal aid s.earnings →
      (⟨aid, unpaidTotal aid s.earnings⟩ : ReportEntry) ∈ (payoutLoop t affs s).2 ∧
      (⟨aid, unpaidTotal aid s.earnings, "pending"⟩ : Payout) ∈ ((payoutLoop t affs s).1).payouts ∧
      unpaidOf aid ((payoutLoop t affs s).1).earnings = [] := by
  induction affs with
  | nil => intro s hmem; exact absurd hmem (List.not_mem_nil aid)
  | cons b rest ih =>
    intro s hmem ht
    rw [payoutLoop_fst, payoutLoop_snd]
    by_cases hb : b = aid
    · subst hb
      have hstep := processAffiliate_eq t b s
      rw [if_pos ht] at hstep
      rw [hstep]
      refine ⟨?_, ?_, ?_⟩
      · exact List.mem_append_left _ (List.mem_singleton_self _)
      · apply payoutLoop_payout_mem
        exact List.mem_append_right _ (List.mem_singleton_self _)
      · apply payoutLoop_unpaid_empty
        exact unpaidOf_markPaid_self b s.earnings
    · have hmem' : aid ∈ rest := by
        rcases List.mem_cons.mp hmem with hh | hh
        · exact absurd hh.symm hb
        · exact hh
      have hpres := unpaidTotal_step_other t b aid (fun hc => hb hc.symm) s
      have hih := ih ((processAffiliate t b s).1) hmem' (by rw [hpres]; exact ht)
      rw [hpres] at hih
      exact ⟨List.mem_append_right _ hih.1, hih.2.1, hih.2.2⟩

theorem payoutLoop_skips (t : Rat) (aid : String) (affs : List String) :
    ∀ s : State, unpaidTotal aid s.earnings < t →
      (∀ en ∈ (payoutLoop t affs s).2, ¬en.affiliate = aid) ∧
      unpaidOf aid ((payoutLoop t affs s).1).earnings = unpaidOf aid s.earnings := by
  induction affs with
  | nil =>
    intro s hlt
    exact ⟨fun en hen => absurd hen (List.not_mem_nil en), rfl⟩
  | cons b rest ih =>
    intro s hlt
    rw [payoutLoop_fst, payoutLoop_snd]
    by_cases hb : b = aid
    · subst hb
      have hstep := processAffiliate_eq t b s
      rw [if_neg (not_le.mpr hlt)] at hstep
      rw [hstep]
      simpa using ih s hlt
    · have hne : ¬aid = b := fun hc => hb hc.symm
      have hpres := unpaidOf_step_other t b aid hne s
      have hprest : unpaidTotal aid ((processAffiliate t b s).1).earnings
          = unpaidTotal aid s.earnings := by
        unfold unpaidTotal
        rw [hpres]
      have hih := ih ((processAffiliate t b s).1) (by rw [hprest]; exact hlt)
      refine ⟨?_, by rw [hih.2, hpres]⟩
      intro en hen
      rcases List.mem_append.mp hen with hh | hh
      · rcases processAffiliate_snd t b s with hn | hs2
        · rw [hn] at hh
          cases hh
        · rw [hs2] at hh
          rcases List.mem_singleton.mp hh with rfl
          exact fun hc => hb hc
      · exact hih.1 en hh

/-! ### Each affiliate is paid at most once across successive runs -/

theorem countP_entries_empty (t : Rat) (aid : String) (ht : 0 < t) (affs : List String) :
    ∀ s : State, unpaidOf aid s.earnings = [] →
      ((payoutLoop t affs s).2.countP (fun en => en.affiliate == aid)) = 0 := by
  induction affs with
  | nil => intro s _; rfl
  | cons b rest ih =>
    intro s h
    rw [payoutLoop_snd, List.countP_append]
    have h1 : unpaidOf aid ((processAffiliate t b s).1).earnings = [] :=
      unpaid_empty_step t b aid s h
    have hrest := ih _ h1
    by_cases hb : b = aid
    · subst hb
      have htot : unpaidTotal b s.earnings = 0 := by
        unfold unpaidTotal
        rw [h]
        rfl
      have hstep := processAffiliate_eq t b s
      rw [htot, if_neg (not_le.mpr ht)] at hstep
      rw [hstep] at hrest ⊢
      simpa using hrest
    · have hbf : (b == aid) = false := by
        cases hx : (b == aid)
        · rfl
        · exact absurd (by simpa using hx) hb
      rcases processAffiliate_snd t b s with hn | hs2
      · rw [hn]
        simpa using hrest
      · rw [hs2]
        simp only [Option.toList_some, List.countP_cons, List.countP_nil, hbf]
        simpa using hrest

theorem countP_entries_le_one (t : Rat) (aid : String) (ht : 0 < t) (affs : List String) :
    ∀ s : State,
      ((payoutLoop t affs s).2.countP (fun en => en.affiliate == aid)) ≤ 1 ∧
      (1 ≤ ((payoutLoop t affs s).2.countP (fun en => en.affiliate == aid)) →
        unpaidOf aid ((payoutLoop t affs s).1).earnings = []) := by
  induction affs with
  | nil =>
    intro s
    exact ⟨by simp [payoutLoop], by intro h; simp [payoutLoop] at h⟩
  | cons b rest ih =>
    intro s
    rw [payoutLoop_snd, payoutLoop_fst, List.countP_append]
    by_cases hb : b = aid
    · subst hb
      have hstep := processAffiliate_eq t b s
      by_cases hcommit : t ≤ unpaidTotal b s.earnings
      · rw [if_pos hcommit] at hstep
        rw [hstep]
        have hrest0 := countP_entries_empty t b ht rest
          ({ s with payouts := s.payouts ++ [⟨b, unpaidTotal b s.earnings, "pending"⟩],
                    earnings := markPaid b s.earnings })
          (unpaidOf_markPaid_self b s.earnings)
        have hfin := payoutLoop_unpaid_empty t b rest
          ({ s with payouts := s.payouts ++ [⟨b, unpaidTotal b s.earnings, "pending"⟩],
                    earnings := markPaid b s.earnings })
          (unpaidOf_markPaid_self b s.earnings)
        constructor
        · simp [hrest0]
        · intro _
          exact hfin
      · rw [if_neg hcommit] at hstep
        rw [hstep]
        simpa using ih s
    · have hbf : (b == aid) = false := by
        cases hx : (b == aid)
        · rfl
        · exact absurd (by simpa using hx) hb
      rcases processAffiliate_snd t b s with hn | hs2
      · rw [hn]
        simpa using ih _
      · rw [hs2]
        simp only [Option.toList_some, List.countP_cons, List.countP_nil, hbf]
        simpa using ih _

/-! ### A paid earning never becomes unpaid, so it is flipped at most once -/

theorem flipInd_le_one (i : Nat) (s s' : State) : flipInd i s s' ≤ 1 := by
  unfold flipInd
  split <;> simp

theorem paidAt_markPaid (i : Nat) (aid : String) (es : List Earning)
    (h : es.any (fun e => e.id == i && e.paid) = true) :
    (markPaid aid es).any (fun e => e.id == i && e.paid) = true := by
  rw [List.any_eq_true] at h ⊢
  rcases h with ⟨e, he, hp⟩
  refine ⟨markFn aid e, List.mem_map_of_mem _ he, ?_⟩
  rw [markFn_id, markFn_paid]
  have h1 : (e.id == i) = true := ((Bool.and_eq_true _ _).mp hp).1
  have h2 : e.paid = true := ((Bool.and_eq_true _ _).mp hp).2
  rw [h1, h2]
  rfl

theorem paidAt_step (t : Rat) (b : String) (i : Nat) (s : State) (h : paidAt i s = true) :
    paidAt i ((processAffiliate t b s).1) = true := by
  unfold paidAt at h ⊢
  rw [processAffiliate_eq]
  split
  · exact paidAt_markPaid i b s.earnings h
  · exact h

theorem paidAt_webhook (rate : Rat) (sess : CheckoutSession) (i : Nat) (s : State)
    (h : paidAt i s = true) : paidAt i (stripe_webhook rate sess s) = true := by
  unfold paidAt at h ⊢
  rcases stripe_webhook_earnings_shape rate sess s with he | ⟨aff, amt, he⟩
  · rw [he]
    exact h
  · rw [he, List.any_append, h]
    rfl

theorem loopFlips_spec (t : Rat) (i : Nat) (affs : List String) :
    ∀ s : State,
      (paidAt i s = true → loopFlips t i affs s = 0 ∧ paidAt i ((payoutLoop t affs s).1) = true) ∧
      loopFlips t i affs s ≤ 1 ∧
      (1 ≤ loopFlips t i affs s → paidAt i ((payoutLoop t affs s).1) = true) := by
  induction affs with
  | nil =>
    intro s
    refine ⟨fun h => ⟨rfl, h⟩, by simp [loopFlips], ?_⟩
    intro h
    simp [loopFlips] at h
  | cons b rest ih =>
    intro s
    have hfi : loopFlips t i (b :: rest) s
        = flipInd i s (processAffiliate t b s).1 + loopFlips t i rest (processAffiliate t b s).1 := rfl
    rw [hfi, payoutLoop_fst]
    refine ⟨?_, ?_⟩
    · intro hp
      have hp1 : paidAt i ((processAffiliate t b s).1) = true := paidAt_step t b i s hp
      have h0 : flipInd i s ((processAffiliate t b s).1) = 0 := by
        unfold flipInd
        rw [hp]
        rfl
      rw [h0, ((ih _).1 hp1).1]
      exact ⟨rfl, ((ih _).1 hp1).2⟩
    · cases hp1 : paidAt i ((processAffiliate t b s).1)
      · have h0 : flipInd i s ((processAffiliate t b s).1) = 0 := by
          unfold flipInd
          rw [hp1]
          simp
        rw [h0]
        refine ⟨by simpa using (ih _).2.1, ?_⟩
        intro h1
        exact (ih _).2.2 (by simpa using h1)
      · have hrest0 : loopFlips t i rest ((processAffiliate t b s).1) = 0 := ((ih _).1 hp1).1
        have hfin : paidAt i ((payoutLoop t rest ((processAffiliate t b s).1)).1) = true :=
          ((ih _).1 hp1).2
        rw [hrest0]
        refine ⟨?_, fun _ => hfin⟩
        simpa using flipInd_le_one i s ((processAffiliate t b s).1)

theorem traceFlips_spec (rate : Rat) (i : Nat) (tr : List Op) :
    ∀ s : State,
      (paidAt i s = true → traceFlips rate i tr s = 0) ∧
      traceFlips rate i tr s ≤ 1 := by
  induction tr with
  | nil => intro s; exact ⟨fun _ => rfl, by simp [traceFlips]⟩
  | cons o rest ih =>
    intro s
    cases o with
    | record sess =>
      have hfi : traceFlips rate i (Op.record sess :: rest) s
          = flipInd i s (stripe_webhook rate sess s)
            + traceFlips rate i rest (stripe_webhook rate sess s) := rfl
      rw [hfi]
      refine ⟨?_, ?_⟩
      · intro hp
        have hp1 := paidAt_webhook rate sess i s hp
        have h0 : flipInd i s (stripe_webhook rate sess s) = 0 := by
          unfold flipInd
          rw [hp]
          rfl
        rw [h0, (ih _).1 hp1]
      · cases hp1 : paidAt i (stripe_webhook rate sess s)
        · have h0 : flipInd i s (stripe_webhook rate sess s) = 0 := by
            unfold flipInd
            rw [hp1]
            simp
          rw [h0]
          simpa using (ih _).2
        · rw [(ih _).1 hp1]
          simpa using flipInd_le_one i s (stripe_webhook rate sess s)
    | payout =>
      have hfi : traceFlips rate i (Op.payout :: rest) s
          = loopFlips 500 i s.affiliates s + traceFlips rate i rest (run_affiliate_payouts s).1 := rfl
      rw [hfi]
      have hloop := loopFlips_spec 500 i s.affiliates s
      refine ⟨?_, ?_⟩
      · intro hp
        have hp1 : paidAt i (run_affiliate_payouts s).1 = true := (hloop.1 hp).2
        rw [(hloop.1 hp).1, (ih _).1 hp1]
      · rcases Nat.eq_zero_or_pos (loopFlips 500 i s.affiliates s) with h0 | h1
        · rw [h0]
          simpa using (ih _).2
        · have hp1 : paidAt i (run_affiliate_payouts s).1 = true := hloop.2.2 h1
          rw [(ih _).1 hp1]
          have h2 := hloop.2.1
          omega

/-! ### Earnings are append-only and immutable apart from the paid flip -/

theorem markFn_gross (aid : String) (e : Earning) : (markFn aid e).gross = e.gross := by
  unfold markFn; split <;> rfl

theorem markFn_source (aid : String) (e : Earning) : (markFn aid e).source = e.source := by
  unfold markFn; split <;> rfl

theorem markFn_session (aid : String) (e : Earning) :
    (markFn aid e).session_id = e.session_id := by
  unfold markFn; split <;> rfl

theorem get_eq_of_list_eq (l l' : List Earning) (h : l = l') (i : Nat)
    (h2 : i < l.length) (h3 : i < l'.length) : l.get ⟨i, h2⟩ = l'.get ⟨i, h3⟩ := by
  subst h
  rfl

theorem earnEvol_refl (es : List Earning) : EarnEvol es es := by
  refine ⟨Nat.le_refl _, ?_⟩
  intro i h1 h2
  exact ⟨rfl, rfl, rfl, rfl, rfl, rfl, fun h => h⟩

theorem earnEvol_trans (e1 e2 e3 : List Earning) (h12 : EarnEvol e1 e2)
    (h23 : EarnEvol e2 e3) : EarnEvol e1 e3 := by
  refine ⟨Nat.le_trans h12.1 h23.1, ?_⟩
  intro i h1 h3
  have h2 : i < e2.length := Nat.lt_of_lt_of_le h1 h12.1
  have a := h12.2 i h1 h2
  have b := h23.2 i h2 h3
  exact ⟨b.1.trans a.1, b.2.1.trans a.2.1, b.2.2.1.trans a.2.2.1, b.2.2.2.1.trans a.2.2.2.1,
    b.2.2.2.2.1.trans a.2.2.2.2.1, b.2.2.2.2.2.1.trans a.2.2.2.2.2.1,
    fun hp => b.2.2.2.2.2.2 (a.2.2.2.2.2.2 hp)⟩

theorem earnEvol_append (es tail : List Earning) : EarnEvol es (es ++ tail) := by
  refine ⟨by simp, ?_⟩
  intro i h1 h2
  have hg : (es ++ tail).get ⟨i, h2⟩ = es.get ⟨i, h1⟩ := by
    rw [List.get_eq_getElem, List.get_eq_getElem]
    exact List.getElem_append_left h1
  rw [hg]
  exact ⟨rfl, rfl, rfl, rfl, rfl, rfl, fun h => h⟩

theorem earnEvol_markPaid (aid : String) (es : List Earning) :
    EarnEvol es (markPaid aid es) := by
  refine ⟨by simp [markPaid], ?_⟩
  intro i h1 h2
  have hg : (markPaid aid es).get ⟨i, h2⟩ = markFn aid (es.get ⟨i, h1⟩) := by
    rw [List.get_eq_getElem, List.get_eq_getElem]
    simp [markPaid]
  rw [hg]
  refine ⟨markFn_id aid _, markFn_affiliate aid _, markFn_amount aid _, markFn_gross aid _,
    markFn_source aid _, markFn_session aid _, ?_⟩
  intro hp
  rw [markFn_paid, hp]
  rfl

theorem earnEvol_step (t : Rat) (b : String) (s : State) :
    EarnEvol s.earnings ((processAffiliate t b s).1).earnings := by
  rw [processAffiliate_eq]
  split
  · exact earnEvol_markPaid b s.earnings
  · exact earnEvol_refl s.earnings

theorem earnEvol_payoutLoop (t : Rat) (affs : List String) :
    ∀ s : State, EarnEvol s.earnings ((payoutLoop t affs s).1).earnings := by
  induction affs with
  | nil => intro s; exact earnEvol_refl s.earnings
  | cons b rest ih =>
    intro s
    rw [payoutLoop_fst]
    exact earnEvol_trans _ _ _ (earnEvol_step t b s) (ih _)

theorem earnEvol_webhook (rate : Rat) (sess : CheckoutSession) (s : State) :
    EarnEvol s.earnings (stripe_webhook rate sess s).earnings := by
  rcases stripe_webhook_earnings_shape rate sess s with he | ⟨aff, amt, he⟩
  · rw [he]
    exact earnEvol_refl _
  · rw [he]
    exact earnEvol_append _ _

/-! ### The claims -/

/-- Claim C1: in every reachable state — any interleaving of earning
recordings and payout runs starting from the empty store — the sum of
payout amounts of an affiliate plus the sum of that affiliate's unpaid
earning amounts equals the sum of all of that affiliate's earning amounts
ever created. -/
theorem conservation_law (rate : Rat) (s : State) (h : Reachable rate s) (aid : String) :
    payoutSum aid s + unpaidSum aid s = earnedSum aid s := by
  obtain ⟨tr, rfl⟩ := h
  exact conserved_runTrace rate tr initState conserved_initState aid

/-- Witness for C1: the conservation law evaluated after one recording and
one payout run. -/
theorem conservation_law_witness :
    payoutSum affA1 stateW + unpaidSum affA1 stateW = earnedSum affA1 stateW :=
  conservation_law AFFILIATE_COMMISSION stateW ⟨trW, rfl⟩ affA1

/-- Claim C2: across any trace from the empty store, no earning's `paid`
flag is flipped from false to true by more than one payout commit — payout
runs are counted commit by commit — so no two payout records settle
overlapping earning sets. -/
theorem no_double_pay (rate : Rat) (i : Nat) (tr : List Op) :
    traceFlips rate i tr initState ≤ 1 :=
  (traceFlips_spec rate i tr initState).2

/-- Claim C3 fails on the code: the recorder performs no duplicate check
on `(source, reference)`, so a retried webhook with the identical session
appends a second earning instead of returning the first unchanged.  Here
the same event is delivered twice and two earnings with the same
`(source, session_id)` pair exist afterwards. -/
theorem recording_not_idempotent :
    (stripe_webhook AFFILIATE_COMMISSION sessW
        (stripe_webhook AFFILIATE_COMMISSION sessW initState)).earnings.length = 2 ∧
    ((stripe_webhook AFFILIATE_COMMISSION sessW
        (stripe_webhook AFFILIATE_COMMISSION sessW initState)).earnings.countP
      (fun e => e.source == "stripe" && e.session_id == some sessRef)) = 2 := by
  decide

/-- Claim C4: for a payout run with threshold `t` (the code's runner fixes
`t = 500`) and an affiliate in the collection: at or above `t`, the run
reports the affiliate with exactly the full accumulated unpaid total,
commits a pending payout of that amount and clears the unpaid set; below
`t`, the affiliate is absent from the report and its unpaid earnings are
untouched, rolling forward to the next run. -/
theorem threshold_rule (t : Rat) (s : State) (aid : String) (hmem : aid ∈ s.affiliates) :
    (t ≤ unpaidSum aid s →
      (⟨aid, unpaidSum aid s⟩ : ReportEntry) ∈ (runPayoutsWith t s).2 ∧
      (⟨aid, unpaidSum aid s, "pending"⟩ : Payout) ∈ ((runPayoutsWith t s).1).payouts ∧
      unpaidOf aid ((runPayoutsWith t s).1).earnings = []) ∧
    (unpaidSum aid s < t →
      (∀ en ∈ (runPayoutsWith t s).2, ¬en.affiliate = aid) ∧
      unpaidOf aid ((runPayoutsWith t s).1).earnings = unpaidOf aid s.earnings) := by
  constructor
  · intro ht
    exact payoutLoop_commits t aid s.affiliates s hmem ht
  · intro ht
    exact payoutLoop_skips t aid s.affiliates s ht

/-- Witness for C4: affiliate `A1` with accumulated unpaid total 550 and
threshold 500 is paid the full 550 and its unpaid set is cleared. -/
theorem threshold_rule_witness :
    (⟨affA1, (550 : Rat)⟩ : ReportEntry) ∈ (runPayoutsWith 500 exState).2 ∧
    unpaidOf affA1 ((runPayoutsWith 500 exState).1).earnings = [] := by
  have h := (threshold_rule 500 exState affA1 (by decide)).1 (by decide)
  have he : unpaidSum affA1 exState = 550 := by decide
  rw [he] at h
  exact ⟨h.1, h.2.2⟩

/-- Claim C5: two immediately consecutive payout runs pay each affiliate
at most once in total, and on the example ledger (`A1` with unpaid 200,
150, 200 and threshold 500) the first run reports exactly
`(A1, 550)` and marks all three earnings paid, while the second run
reports nothing. -/
theorem payout_runs_idempotent :
    (∀ (s : State) (aid : String),
      ((run_affiliate_payouts s).2.countP (fun en => en.affiliate == aid))
        + ((run_affiliate_payouts (run_affiliate_payouts s).1).2.countP
            (fun en => en.affiliate == aid)) ≤ 1) ∧
    (run_affiliate_payouts exState).2 = [⟨affA1, 550⟩] ∧
    (((run_affiliate_payouts exState).1).earnings.all (fun e => e.paid)) = true ∧
    (run_affiliate_payouts ((run_affiliate_payouts exState).1)).2 = [] := by
  refine ⟨?_, by decide, by decide, by decide⟩
  intro s aid
  have h1 := countP_entries_le_one 500 aid (by decide) s.affiliates s
  have e1 : (run_affiliate_payouts s).2.countP (fun en => en.affiliate == aid) ≤ 1 := h1.1
  rcases Nat.eq_zero_or_pos
      ((run_affiliate_payouts s).2.countP (fun en => en.affiliate == aid)) with h0 | hpos
  · have h2 := countP_entries_le_one 500 aid (by decide)
      ((run_affiliate_payouts s).1).affiliates ((run_affiliate_payouts s).1)
    have e2 : (run_affiliate_payouts (run_affiliate_payouts s).1).2.countP
        (fun en => en.affiliate == aid) ≤ 1 := h2.1
    omega
  · have hempty : unpaidOf aid ((run_affiliate_payouts s).1).earnings = [] := h1.2 hpos
    have h2 := countP_entries_empty 500 aid (by decide)
      ((run_affiliate_payouts s).1).affiliates ((run_affiliate_payouts s).1) hempty
    have e2 : (run_affiliate_payouts (run_affiliate_payouts s).1).2.countP
        (fun en => en.affiliate == aid) = 0 := h2
    omega

/-- Claim C6: a recording with a truthy affiliate and non-zero amount
persists exactly one new earning with `amount = gross * commission_rate`
and `paid = false`, where `gross = amount_total / 100`. -/
theorem recorder_computes_commission (rate : Rat) (sess : CheckoutSession) (s : State)
    (aff : String) (n : Int) (haff : sess.affiliate_id = some aff) (hne : ¬aff = "")
    (hn : sess.amount_total = some n) (hnz : ¬n = 0) :
    (stripe_webhook rate sess s).earnings
      = s.earnings ++ [⟨s.earnings.length, aff, ((n : Rat) / 100) * rate,
          (n : Rat) / 100, "stripe", sess.sid, false⟩] :=
  (stripe_webhook_appends rate sess s aff n haff hne hn hnz).1

/-- Witness for C6: gross 1000 at rate 0.30 yields one earning of 300. -/
theorem recorder_computes_commission_witness :
    (stripe_webhook AFFILIATE_COMMISSION sessW initState).earnings
      = [⟨0, affA1, 300, 1000, "stripe", some sessRef, false⟩] := by
  have h := recorder_computes_commission AFFILIATE_COMMISSION sessW initState affA1 100000
    rfl (by decide) rfl (by decide)
  rw [h]
  decide

/-- Claim C7 fails on the code: no precondition is validated.  A
`checkout.session.completed` event with a negative gross (`amount_total
= -100000`) is not rejected: a payment record is persisted and an earning
with negative amount is created. -/
theorem invalid_input_not_rejected :
    (stripe_webhook AFFILIATE_COMMISSION sessNeg initState).payments.length = 1 ∧
    (stripe_webhook AFFILIATE_COMMISSION sessNeg initState).earnings.length = 1 ∧
    ((stripe_webhook AFFILIATE_COMMISSION sessNeg initState).earnings.countP
      (fun e => decide (e.amount < 0))) = 1 := by
  decide

/-- Claim C8: across any single operation, earnings are never deleted,
every field of an existing earning other than `paid` is immutable, `paid`
only moves from false to true, and a recording operation never changes
any existing earning at all (so `paid` is set only by the payout engine). -/
theorem earning_immutability (rate : Rat) (o : Op) (s : State) :
    EarnEvol s.earnings ((applyOp rate o s).earnings) ∧
    (∀ sess, o = Op.record sess →
      ∀ (i : Nat) (h1 : i < s.earnings.length) (h2 : i < (applyOp rate o s).earnings.length),
        (applyOp rate o s).earnings.get ⟨i, h2⟩ = s.earnings.get ⟨i, h1⟩) := by
  constructor
  · cases o with
    | record sess => exact earnEvol_webhook rate sess s
    | payout => exact earnEvol_payoutLoop 500 s.affiliates s
  · intro sess ho i h1 h2
    subst ho
    show (stripe_webhook rate sess s).earnings.get ⟨i, h2⟩ = s.earnings.get ⟨i, h1⟩
    rcases stripe_webhook_earnings_shape rate sess s with he | ⟨aff, amt, he⟩
    · exact get_eq_of_list_eq _ _ he i h2 h1
    · have hlen : i < (s.earnings
          ++ [(⟨s.earnings.length, aff, amt * rate, amt, "stripe", sess.sid, false⟩ : Earning)]).length := by
        rw [List.length_append]
        omega
      have hx := get_eq_of_list_eq _ _ he i h2 hlen
      rw [hx, List.get_eq_getElem, List.get_eq_getElem]
      exact List.getElem_append_left h1

/-- Witness for C8: after a payout run on the example ledger, the first
earning keeps its amount. -/
theorem earning_immutability_witness :
    ((applyOp AFFILIATE_COMMISSION Op.payout exState).earnings.get ⟨0, by decide⟩).amount
      = (exState.earnings.get ⟨0, by decide⟩).amount := by
  have h := (earning_immutability AFFILIATE_COMMISSION Op.payout exState).1
  exact (h.2 0 (by decide) (by decide)).2.2.1

/-- Claim C9 fails on the code: the payout loop has no per-affiliate
error isolation — a store failure on one affiliate aborts the whole run
(here `A2` holds 600 ≥ 500 but is never processed once the query for `A1`
raises) — and even a successful run's report only lists paid affiliates:
a below-threshold affiliate produces no entry at all, so the report does
not distinguish paid, below-threshold and failed affiliates. -/
theorem payout_run_not_isolated :
    payoutLoopFallible 500 (fun a => a == affA1) sF.affiliates sF = RunOutcome.raised affA1 ∧
    (500 : Rat) ≤ unpaidSum affA2 sF ∧
    (run_affiliate_payouts sFb).2 = [⟨affA2, 600⟩] := by
  refine ⟨by decide, by decide, by decide⟩

/-- Claim C10: every `checkout.session.completed` event saves exactly one
payment record; when the affiliate metadata is missing or empty, or the
amount is missing, null or zero, no earning is created and no affiliate
document is upserted; and when both are present (affiliate truthy, amount
non-zero), exactly one earning is appended and the affiliate upserted. -/
theorem webhook_requires_affiliate_and_amount (rate : Rat) (sess : CheckoutSession) (s : State) :
    (stripe_webhook rate sess s).payments.length = s.payments.length + 1 ∧
    ((strTruthy sess.affiliate_id = false ∨ sessionAmount sess = none) →
      (stripe_webhook rate sess s).earnings = s.earnings ∧
      (stripe_webhook rate sess s).affiliates = s.affiliates) ∧
    (∀ aff n, sess.affiliate_id = some aff → ¬aff = "" → sess.amount_total = some n →
      ¬n = 0 →
      (stripe_webhook rate sess s).earnings
        = s.earnings ++ [⟨s.earnings.length, aff, ((n : Rat) / 100) * rate,
            (n : Rat) / 100, "stripe", sess.sid, false⟩] ∧
      (stripe_webhook rate sess s).affiliates = upsert aff s.affiliates) := by
  refine ⟨stripe_webhook_payments_length rate sess s, stripe_webhook_no_earning rate sess s, ?_⟩
  intro aff n haff hne hn hnz
  exact stripe_webhook_appends rate sess s aff n haff hne hn hnz

/-- Witness for C10: an event with no affiliate metadata saves a payment
record but creates no earning and no affiliate document. -/
theorem webhook_requires_witness :
    (stripe_webhook AFFILIATE_COMMISSION sessNoAff initState).earnings = [] ∧
    (stripe_webhook AFFILIATE_COMMISSION sessNoAff initState).affiliates = [] ∧
    (stripe_webhook AFFILIATE_COMMISSION sessNoAff initState).payments.length = 1 := by
  have h := webhook_requires_affiliate_and_amount AFFILIATE_COMMISSION sessNoAff initState
  have h2 := h.2.1 (Or.inl (by decide))
  exact ⟨h2.1, h2.2, h.1⟩
